import Mathlib

/-!
Verification of the Cross-Source Tabular Reconciliation Engine
(`src/nodes/validation_node.py`) against its natural-language specification.

Modelling conventions used throughout this file:
* Python floats are modelled as exact sign-magnitude rationals (`PyFloat`):
  a sign bit plus a non-negative magnitude, so that the IEEE negative zero
  `-0.0` is representable and distinct from `0.0` as a bit pattern while
  numerically equal to it.  Decimal rounding and formatting are modelled as
  exact operations on the rational value (round-half-even, as Python's
  `round` and `format` use).
* Python strings are modelled as `List Char` (`Str`).
* The SHA-256 hex digest of `hash_columns` is modelled as the canonical
  concatenation string itself: the spec treats the digest as an injective
  (collision-resistant) encoding of that string, and every claim only ever
  compares digests for equality.
-/

namespace LibraValidation

abbrev Str := List Char

/-- A Python float: sign bit plus magnitude.  `⟨true, 0⟩` is `-0.0`. -/
structure PyFloat where
  neg : Bool
  mag : ℚ
deriving DecidableEq

/-- The numeric value of a Python float (the sign of zero is numerically
irrelevant, exactly as in Python where `-0.0 == 0.0`). -/
def PyFloat.val (x : PyFloat) : ℚ := if x.neg then -x.mag else x.mag

/-- Well-formedness: the magnitude of a float is non-negative. -/
def PyFloat.WF (x : PyFloat) : Prop := 0 ≤ x.mag

instance (x : PyFloat) : Decidable x.WF :=
  inferInstanceAs (Decidable (0 ≤ x.mag))

/-- Round-half-even on rationals: the rounding used by Python's `round`
and by `%.6f` formatting (ties go to the even integer). -/
def rhe (q : ℚ) : ℤ :=
  if q - (⌊q⌋ : ℚ) < 1/2 then ⌊q⌋
  else if 1/2 < q - (⌊q⌋ : ℚ) then ⌊q⌋ + 1
  else if ⌊q⌋ % 2 = 0 then ⌊q⌋ else ⌊q⌋ + 1

/-- The character for a decimal digit `d < 10`. -/
def digitChar (d : ℕ) : Char := Char.ofNat (48 + d)

/-- Decimal digit string of a natural number (no leading zeros except "0"). -/
def natDecimal (n : ℕ) : Str :=
  if h : n < 10 then [digitChar n]
  else natDecimal (n / 10) ++ [digitChar (n % 10)]
termination_by n
decreasing_by
  exact Nat.div_lt_self (by omega) (by omega)

/-- Exactly six decimal digits of `m < 10^6`, zero padded on the left:
the fractional part printed by Python's `f"{x:.6f}"`. -/
def pad6 (m : ℕ) : Str :=
  [digitChar (m / 100000 % 10), digitChar (m / 10000 % 10), digitChar (m / 1000 % 10),
   digitChar (m / 100 % 10), digitChar (m / 10 % 10), digitChar (m % 10)]

/-- The unsigned decimal rendering of `n` millionths with six fractional
digits (`n = 1234567` ↦ `"1.234567"`). -/
def decimal6 (n : ℕ) : Str := natDecimal (n / 1000000) ++ '.' :: pad6 (n % 1000000)

/-- Python's `f"{x:.6f}"`: sign of the float (including the sign of zero),
followed by the magnitude rounded half-even to six decimal places. -/
def format6 (x : PyFloat) : Str :=
  (if x.neg then ['-'] else []) ++ decimal6 (rhe (x.mag * 1000000)).toNat

/-- `format_value` of `ValidationNode.hash_columns` (lines 18-24): every
numeric representation of zero is first normalized to `0.0`, then the value
is formatted with six decimal places. -/
def format_value (x : PyFloat) : Str :=
  if x.val = 0 then format6 ⟨false, 0⟩ else format6 x

/-- A dataset row: the two numeric columns compared by the engine
(`Liability`/`RIDER_VALUE` first, `Asset`/`ASSET_VALUE` second). -/
abbrev Row := PyFloat × PyFloat

/-- Join a list of strings with a separator character, exactly as Python's
`sep.join` / pandas `str.cat(sep=...)`: no leading or trailing separator,
and the empty list joins to the empty string. -/
def joinSep (sep : Char) : List Str → Str
  | [] => []
  | [s] => s
  | s :: rest => s ++ sep :: joinSep sep rest

/-- One row of the canonical string: the two formatted fields joined
with `','` (`','.join(format_value(x) for x in row)`, line 26). -/
def rowStr (r : Row) : Str := format_value r.1 ++ ',' :: format_value r.2

/-- The canonical concatenation string of `hash_columns` (line 26): rows
joined with `'|'`. -/
def concatStr (rows : List Row) : Str := joinSep '|' (rows.map rowStr)

/-- `ValidationNode.hash_columns` (lines 16-27) restricted to the two
numeric columns the engine always passes it.  The SHA-256 hex digest is
modelled as the canonical string itself (an injective stand-in for a
collision-resistant digest); the function returns `(digest, concat_str)`
like the source. -/
def hash_columns (rows : List Row) : Str × Str := (concatStr rows, concatStr rows)

/-- Exact-mode verdict: `match = (hash1 == hash2)` (line 148). -/
def exactMatched (a b : List Row) : Bool := decide ((hash_columns a).1 = (hash_columns b).1)

/-- The canonical key of a value: the data `format_value` actually renders —
the sign bit after zero-normalization, and the magnitude rounded half-even
to six decimal places (in millionths). -/
def canonKey (x : PyFloat) : Bool × ℤ :=
  if x.val = 0 then (false, 0) else (x.neg, rhe (x.mag * 1000000))

/-- The canonical key of a row. -/
def canonRow (r : Row) : (Bool × ℤ) × (Bool × ℤ) := (canonKey r.1, canonKey r.2)

/-- The claim's notion of "value after 6-decimal rounding and
zero-normalization": round the signed value half-even at six decimals;
the result is a plain integer number of millionths, so every zero is
already the single canonical zero. -/
def specRound6 (x : PyFloat) : ℤ := rhe (x.val * 1000000)

/-- `specRound6` on a row. -/
def specRoundRow (r : Row) : ℤ × ℤ := (specRound6 r.1, specRound6 r.2)

/-- Python's `round(x, 6)` (lines 129-130): round the magnitude half-even
at six decimals, keeping the float's sign bit (Python's `round` returns
`-0.0` for tiny negative inputs). -/
def round6F (x : PyFloat) : PyFloat := ⟨x.neg, (rhe (x.mag * 1000000) : ℚ) / 1000000⟩

end LibraValidation

namespace LibraValidation

/-! ### The Verdict Recorder (`log_validation_result`, lines 29-34) -/

/-- The verdict word: `"correct" if match else "wrong"` (line 32).  `match`
is a Python `bool | None`; only `True` is truthy, so `None` and `False`
both record `"wrong"`. -/
def statusStr (m : Option Bool) : Str :=
  if m = some true then ("correct").data else ("wrong").data

/-- The log line `f"[{timestamp}] {file_name} | {status}\n"` (line 34).
The wall-clock timestamp is a parameter: the recorder formats whatever
`datetime.now()` returned. -/
def logLine (ts fn : Str) (m : Option Bool) : Str :=
  ('[' :: ts) ++ (']' :: ' ' :: fn) ++ (' ' :: '|' :: ' ' :: statusStr m) ++ ['\n']

/-- `log_validation_result` (lines 29-34): the log file is opened in append
mode and one line is written; modelled as appending one line to the list of
lines already in the file. -/
def log_validation_result (log : List Str) (ts fn : Str) (m : Option Bool) : List Str :=
  log ++ [logLine ts fn m]

end LibraValidation

namespace LibraValidation

/-! ### The Source Extractor (Excel branch of `__call__`, lines 47-140)

A sheet is a grid of cells as pandas reads it.  A cell is NA (`NaN`,
`None`, `NaT` — anything `pd.isna` accepts), a piece of text, or a number.
A cell whose text `float()` would parse (e.g. `"1.5"`) is modelled as a
`num` cell: the `str` constructor stands for text that `float()` rejects.
pandas DataFrames are rectangular, so `row.iloc[c]` is total for every
column index the header scan can return; we model rows as NA-padded lists,
which agrees with the source on all rectangular inputs. -/

/-- A spreadsheet cell. -/
inductive Cell where
  | na : Cell
  | str : Str → Cell
  | num : PyFloat → Cell
deriving DecidableEq

/-- A sheet: the list of rows of a pandas DataFrame. -/
abbrev Sheet := List (List Cell)

/-- Python's `str.strip()`: drop whitespace from both ends. -/
def stripL (s : Str) : Str :=
  ((s.dropWhile Char.isWhitespace).reverse.dropWhile Char.isWhitespace).reverse

/-- Python's `str.lower()` (ASCII-adequate for the header tokens). -/
def lowerL (s : Str) : Str := s.map Char.toLower

/-- Python's `str(value)` for a cell, as used by the row-label scan
(line 116): NA cells are filtered out by `pd.notna` before `str` is taken,
so they contribute the empty label; text cells are stripped; the `str()`
of a float is some non-empty numeral — its exact spelling is never
inspected beyond non-emptiness and (non-)containment of the alphabetic
token `"Total"`, so we render it with `format6`. -/
def cellRepr (c : Cell) : Str :=
  match c with
  | .na => []
  | .str s => stripL s
  | .num x => format6 x

/-- Does a non-NA cell's `str(value).strip().lower()` equal the given
header token (lines 66-71)?  A numeric cell's string form is a numeral and
never equals an alphabetic token. -/
def cellTokenMatch (c : Cell) (tok : Str) : Bool :=
  match c with
  | .str s => decide (lowerL (stripL s) = tok)
  | _ => false

def liaTok : Str := ("liability").data
def assetTok : Str := ("asset").data
def totalTok : Str := ("Total").data
def hyTok : Str := ("HY Total").data

/-- The inner cell loop of the header scan (lines 65-72): walk the cells
of one row left to right, filling each still-unassigned column index when
its token matches (`if liability_col is None and ... elif asset_col is
None and ...`). -/
def scanCells : List Cell → ℕ → Option ℕ → Option ℕ → Option ℕ × Option ℕ
  | [], _, l, a => (l, a)
  | c :: cs, i, l, a =>
    if l = none ∧ cellTokenMatch c liaTok then scanCells cs (i + 1) (some i) a
    else if a = none ∧ cellTokenMatch c assetTok then scanCells cs (i + 1) l (some i)
    else scanCells cs (i + 1) l a

/-- The outer row loop of the header scan (lines 64-74), with the early
`break` once both columns are found. -/
def findColsAux : Sheet → Option ℕ → Option ℕ → Option ℕ × Option ℕ
  | [], l, a => (l, a)
  | row :: rest, l, a =>
    match scanCells row 0 l a with
    | (some l', some a') => (some l', some a')
    | (l', a') => findColsAux rest l' a'

/-- The header scan of `__call__` (lines 61-74).  NOTE: the source runs
this on the WB sheet only. -/
def findCols (s : Sheet) : Option ℕ × Option ℕ := findColsAux s none none

/-- `float(cell)` under a `pd.notna` guard (lines 86-90): NA fails the
guard, numbers parse, non-numeric text raises `ValueError`. -/
def parsesFloat (c : Cell) : Option PyFloat :=
  match c with
  | .num x => some x
  | _ => none

/-- The data-start scan (lines 84-94): the first row index at which both
located columns hold a value parseable as a number. -/
def findDataStartAux (l a : ℕ) : Sheet → ℕ → Option ℕ
  | [], _ => none
  | row :: rest, i =>
    if (parsesFloat (row.getD l .na)).isSome ∧ (parsesFloat (row.getD a .na)).isSome
    then some i
    else findDataStartAux l a rest (i + 1)

/-- The data-start scan from row 0 (the source runs it on WB only). -/
def findDataStart (s : Sheet) (l a : ℕ) : Option ℕ := findDataStartAux l a s 0

/-- The row label (lines 113-118): the stripped string form of the first
cell with a non-empty string form; `""` when every cell is NA or
whitespace. -/
def rowLabel : List Cell → Str
  | [] => []
  | c :: rest => if cellRepr c ≠ [] then cellRepr c else rowLabel rest

/-- `float(cell) if pd.notna(cell) else 0` inside the `try` of lines
124-138: NA defaults to `0`, numbers parse, text raises and the row is
skipped. -/
def floatOrZero (c : Cell) : Option PyFloat :=
  match c with
  | .na => some ⟨false, 0⟩
  | .num x => some x
  | .str _ => none

/-- Is the first list a prefix of the second (Boolean)? -/
def isPrefixOfL : Str → Str → Bool
  | [], _ => true
  | _ :: _, [] => false
  | a :: as, b :: bs => a = b && isPrefixOfL as bs

/-- Python's substring test `needle in hay`. -/
def containsSub (needle : Str) : Str → Bool
  | [] => isPrefixOfL needle []
  | hay@(_ :: rest) => isPrefixOfL needle hay || containsSub needle rest

/-- The per-row body of the extraction loop (lines 107-138).  `none`
means the row contributes nothing to `excel_data`: skipped because both
located cells are NA (line 110), because its label contains `"Total"`
without `"HY Total"` (line 121), because a cell raises in `float()`
(line 137), or by the both-zero-and-unlabelled filter (line 133). -/
def processRow (l a : ℕ) (row : List Cell) : Option Row :=
  let cl := row.getD l .na
  let ca := row.getD a .na
  if cl = .na ∧ ca = .na then none
  else
    let label := rowLabel row
    if containsSub totalTok label ∧ ¬ containsSub hyTok label then none
    else
      match floatOrZero cl, floatOrZero ca with
      | some lv, some av =>
        let lv' := round6F lv
        let av' := round6F av
        if lv'.val = 0 ∧ av'.val = 0 ∧ label = [] then none
        else some (lv', av')
      | _, _ => none

end LibraValidation


namespace LibraValidation

/-- The per-sheet extraction loop (lines 105-138): rows from the data-start
index to the end of the sheet, each contributing via `processRow`. -/
def extractSheetRows (l a st : ℕ) (s : Sheet) : List Row :=
  (s.drop st).filterMap (processRow l a)

def colErrMsg : Str := ("Could not find Liability and Asset columns").data
def dataErrMsg : Str := ("Could not find data rows").data

/-- The whole Excel extraction (lines 56-140): the header scan and the
data-start scan run on the WB sheet only, and the resulting column
indices and start row are applied to both sheets (`for sheet_name, df in
[("WB", df1_wb), ("DBIB", df1_dbib)]`, line 105). -/
def extractExcelData (wb dbib : Sheet) : Except Str (List Row) :=
  match findCols wb with
  | (some l, some a) =>
    match findDataStart wb l a with
    | some st => .ok (extractSheetRows l a st wb ++ extractSheetRows l a st dbib)
    | none => .error dataErrMsg
  | _ => .error colErrMsg

/-- The first cell of one row matching a token, by column index. -/
def rowFirstMatch (tok : Str) : List Cell → ℕ → Option ℕ
  | [], _ => none
  | c :: cs, i => if cellTokenMatch c tok then some i else rowFirstMatch tok cs (i + 1)

/-- The column of the first cell in reading order (row-major) whose
stripped, lowered text equals the token: the spec's description of
label-driven column discovery. -/
def firstMatchCol (tok : Str) : Sheet → Option ℕ
  | [] => none
  | row :: rest =>
    match rowFirstMatch tok row 0 with
    | some i => some i
    | none => firstMatchCol tok rest

/-- Per-sheet label-driven extraction following the spec's words (section
4.1 / 6): scan THIS sheet's cells for the header tokens, find THIS sheet's
data-start row, and extract its rows.  This is the refinement target for
claim C2; the source instead reuses the WB sheet's indices. -/
def specSheetExtract (s : Sheet) : Except Str (List Row) :=
  match firstMatchCol liaTok s, firstMatchCol assetTok s with
  | some l, some a =>
    match findDataStart s l a with
    | some st => .ok (extractSheetRows l a st s)
    | none => .error dataErrMsg
  | _, _ => .error colErrMsg

/-- Two-sheet label-driven extraction following the spec's words: each
sheet is processed independently and the rows are concatenated in sheet
order. -/
def specLabelDrivenExtract (wb dbib : Sheet) : Except Str (List Row) := do
  let r1 ← specSheetExtract wb
  let r2 ← specSheetExtract dbib
  return r1 ++ r2

end LibraValidation

namespace LibraValidation

/-! ### The Canonical Comparator, fuzzy mode (MSG branch, lines 149-221) -/

/-- The per-row tolerance test (lines 185-188): both fields within an
absolute difference strictly below `0.001`. -/
def rowMatchB (a b : Row) : Bool :=
  decide (|a.1.val - b.1.val| < 1/1000) && decide (|a.2.val - b.2.val| < 1/1000)

/-- The comparison loop (lines 176-197) counting `(matching_rows,
total_comparisons)` over indices `0 ≤ i < n`.  For two-column numeric
dataframes the per-row `try` can only succeed, so `total_comparisons`
advances every iteration. -/
def compareLoop (df1 df2 : List Row) : ℕ → ℕ × ℕ
  | 0 => (0, 0)
  | n + 1 =>
    let p := compareLoop df1 df2 n
    (if rowMatchB (df1.getD n (⟨false, 0⟩, ⟨false, 0⟩)) (df2.getD n (⟨false, 0⟩, ⟨false, 0⟩))
     then p.1 + 1 else p.1,
     p.2 + 1)

/-- The exact-mode fallback used by the MSG branch (lines 213-215 and
219-221): hash both datasets and compare digests. -/
def hashMatch (df1 df2 : List Row) : Bool :=
  decide ((hash_columns df1).1 = (hash_columns df2).1)

/-- The fuzzy comparator (lines 164-221): row-count guard, positional
tolerance comparison, 80% threshold, exact-hash fallback when the row
difference exceeds 2 or no comparison was made. -/
def fuzzyValidate (df1 df2 : List Row) : Bool :=
  let rowDiff := Nat.dist df1.length df2.length
  if rowDiff ≤ 2 then
    let minRows := min df1.length df2.length
    let p := compareLoop df1 df2 minRows
    if 0 < p.2 then decide ((p.1 : ℚ) / (p.2 : ℚ) * 100 ≥ 80)
    else hashMatch df1 df2
  else hashMatch df1 df2

/-- The number of indices `i ∈ [0, n)` whose rows are within tolerance:
the spec-level count of "matching" rows. -/
def matchingCount (df1 df2 : List Row) (n : ℕ) : ℕ :=
  ((List.range n).filter fun i =>
    rowMatchB (df1.getD i (⟨false, 0⟩, ⟨false, 0⟩)) (df2.getD i (⟨false, 0⟩, ⟨false, 0⟩))).length

end LibraValidation

namespace LibraValidation

/-! ### Top-level control flow of `__call__` (lines 36-245) -/

/-- The observable outcome of one reconciliation attempt: either the
caught-error path (`state["validation"] = {"error": ...}`, the dict
carries no match value) or a completed comparison with its verdict.
Digests and canonical strings are recoverable from `hash_columns`; the
claims only inspect the verdict, the error and the log. -/
inductive ValidationResult where
  | failure : Str → ValidationResult
  | success : Bool → ValidationResult
deriving DecidableEq

def missingMsg : Str := ("Missing Document Intelligence data or table output").data

/-- The Excel branch (lines 47-148): extract, then hash both datasets and
compare digests. -/
def excelValidate (wb dbib : Sheet) (llm : List Row) : ValidationResult :=
  match extractExcelData wb dbib with
  | .error e => .failure e
  | .ok rows => .success (exactMatched rows llm)

/-- The Excel branch including the Verdict Recorder calls: every error
path logs `False` (lines 80, 100, 232), the success path logs the match
(line 244). -/
def runExcel (log : List Str) (ts fn : Str) (wb dbib : Sheet) (llm : List Row) :
    ValidationResult × List Str :=
  match excelValidate wb dbib llm with
  | .failure e => (.failure e, log_validation_result log ts fn (some false))
  | .success m => (.success m, log_validation_result log ts fn (some m))

/-- The MSG branch (lines 149-227): both document-intelligence inputs must
be present, otherwise the attempt fails with `missingMsg`. -/
def msgValidate (docint tbl : Option (List Row)) : ValidationResult :=
  match docint, tbl with
  | some d1, some d2 => .success (fuzzyValidate d1 d2)
  | _, _ => .failure missingMsg

/-- The MSG branch including the Verdict Recorder calls (lines 226, 244). -/
def runMsg (log : List Str) (ts fn : Str) (docint tbl : Option (List Row)) :
    ValidationResult × List Str :=
  match msgValidate docint tbl with
  | .failure e => (.failure e, log_validation_result log ts fn (some false))
  | .success m => (.success m, log_validation_result log ts fn (some m))

end LibraValidation

namespace LibraValidation

/-! ### Concrete example data used by witnesses and counterexamples -/

/-- `Option` fallback, the shape `x if x is not None else y` takes in the
header-scan characterization. -/
def optOr (x y : Option ℕ) : Option ℕ :=
  match x with
  | some v => some v
  | none => y

def zeroRow : Row := (⟨false, 0⟩, ⟨false, 0⟩)
def oneRow : Row := (⟨false, 1⟩, ⟨false, 1⟩)

/-- Ten document-intelligence rows, all zero. -/
def dfTen : List Row := List.replicate 10 zeroRow

/-- Ten LLM rows of which exactly 8 agree with `dfTen` within 0.001. -/
def dfEight : List Row := List.replicate 8 zeroRow ++ List.replicate 2 oneRow

/-- Ten LLM rows of which exactly 7 agree with `dfTen` within 0.001. -/
def dfSeven : List Row := List.replicate 7 zeroRow ++ List.replicate 3 oneRow

/-- Thirteen rows, all zero: row-count difference 3 against `dfTen`. -/
def dfThirteen : List Row := List.replicate 13 zeroRow

/-- `-0.0000001`: a tiny negative float that rounds to zero at six
decimals but formats as `"-0.000000"`. -/
def negTiny : PyFloat := ⟨true, 1/10000000⟩

/-- `0.0000001`. -/
def posTiny : PyFloat := ⟨false, 1/10000000⟩

/-- WB sheet: headers in row 0 with Liability at column 0, Asset at
column 1, one data row. -/
def wbSwap : Sheet :=
  [[.str ("Liability").data, .str ("Asset").data],
   [.num ⟨false, 1⟩, .num ⟨false, 2⟩]]

/-- DBIB sheet of the same width whose headers are swapped: Asset at
column 0, Liability at column 1. -/
def dbibSwap : Sheet :=
  [[.str ("Asset").data, .str ("Liability").data],
   [.num ⟨false, 3⟩, .num ⟨false, 4⟩]]

/-- A sheet missing the Asset header entirely. -/
def wbNoAsset : Sheet :=
  [[.str ("Liability").data],
   [.num ⟨false, 1⟩]]

/-- A data row labelled "Grand Total". -/
def grandTotalRow : List Cell :=
  [.str ("Grand Total").data, .num ⟨false, 1⟩, .num ⟨false, 2⟩]

/-- A data row labelled "HY Total". -/
def hyTotalRow : List Cell :=
  [.str ("HY Total").data, .num ⟨false, 1⟩, .num ⟨false, 2⟩]

/-- A data row labelled "Total" whose two values are zero. -/
def totalZeroRow : List Cell :=
  [.str ("Total").data, .num ⟨false, 0⟩, .num ⟨false, 0⟩]

/-- The string `format_value` renders for a given canonical key: used to
state that `format_value` depends on a value only through its key. -/
def keyFormat (k : Bool × ℤ) : Str :=
  (if k.1 then ['-'] else []) ++ decimal6 k.2.toNat

end LibraValidation

namespace LibraValidation

/-! ### Round-half-even: basic facts -/

theorem rhe_nonneg {q : ℚ} (h : 0 ≤ q) : 0 ≤ rhe q := by
  have hf : (0 : ℤ) ≤ ⌊q⌋ := Int.floor_nonneg.mpr h
  unfold rhe
  split
  · exact hf
  · split
    · omega
    · split <;> omega

theorem rhe_intCast (n : ℤ) : rhe ((n : ℤ) : ℚ) = n := by
  unfold rhe
  rw [Int.floor_intCast, if_pos (by norm_num)]

theorem rhe_neg (q : ℚ) : rhe (-q) = -rhe q := by
  have hr0 : (0 : ℚ) ≤ q - (⌊q⌋ : ℚ) := by linarith [Int.floor_le q]
  have hr1 : q - (⌊q⌋ : ℚ) < 1 := by linarith [Int.lt_floor_add_one q]
  by_cases h0 : q - (⌊q⌋ : ℚ) = 0
  · obtain ⟨n, hn⟩ : ∃ n : ℤ, q = (n : ℚ) := ⟨⌊q⌋, by linarith⟩
    subst hn
    rw [show -((n : ℤ) : ℚ) = ((-n : ℤ) : ℚ) by push_cast; ring, rhe_intCast, rhe_intCast]
  · have hrpos : 0 < q - (⌊q⌋ : ℚ) := lt_of_le_of_ne hr0 (Ne.symm h0)
    have hfl : ⌊-q⌋ = -⌊q⌋ - 1 := by
      rw [Int.floor_eq_iff]
      constructor
      · push_cast
        linarith
      · push_cast
        linarith
    have hrneg : -q - ((⌊-q⌋ : ℤ) : ℚ) = 1 - (q - (⌊q⌋ : ℚ)) := by
      rw [hfl]
      push_cast
      ring
    unfold rhe
    rw [hrneg, hfl]
    rcases lt_trichotomy (q - (⌊q⌋ : ℚ)) (1/2) with hlt | heq | hgt
    · have c1 : ¬ (1 - (q - (⌊q⌋ : ℚ)) < 1/2) := by linarith
      have c2 : 1/2 < 1 - (q - (⌊q⌋ : ℚ)) := by linarith
      rw [if_neg c1, if_pos c2, if_pos hlt]
      omega
    · have c1 : ¬ (1 - (q - (⌊q⌋ : ℚ)) < 1/2) := by rw [heq]; norm_num
      have c2 : ¬ (1/2 < 1 - (q - (⌊q⌋ : ℚ))) := by rw [heq]; norm_num
      have c3 : ¬ (q - (⌊q⌋ : ℚ) < 1/2) := by rw [heq]; norm_num
      have c4 : ¬ (1/2 < q - (⌊q⌋ : ℚ)) := by rw [heq]; norm_num
      rw [if_neg c1, if_neg c2, if_neg c3, if_neg c4]
      by_cases hpar : ⌊q⌋ % 2 = 0
      · have d1 : ¬ ((-⌊q⌋ - 1) % 2 = 0) := by omega
        rw [if_neg d1, if_pos hpar]
        omega
      · have d1 : (-⌊q⌋ - 1) % 2 = 0 := by omega
        rw [if_pos d1, if_neg hpar]
        omega
    · have c1 : 1 - (q - (⌊q⌋ : ℚ)) < 1/2 := by linarith
      have c3 : ¬ (q - (⌊q⌋ : ℚ) < 1/2) := by linarith
      have c4 : 1/2 < q - (⌊q⌋ : ℚ) := by linarith
      rw [if_pos c1, if_neg c3, if_pos c4]
      omega

end LibraValidation

namespace LibraValidation

/-! ### Decimal strings: digits, non-emptiness, injectivity -/

theorem digitChar_inj : ∀ d < 10, ∀ e < 10, digitChar d = digitChar e → d = e := by
  decide

theorem digitChar_not_special :
    ∀ d < 10, digitChar d ≠ '.' ∧ digitChar d ≠ '-' ∧ digitChar d ≠ ',' ∧ digitChar d ≠ '|' := by
  decide

theorem natDecimal_eq_small {n : ℕ} (h : n < 10) : natDecimal n = [digitChar n] := by
  rw [natDecimal]
  exact dif_pos h

theorem natDecimal_eq_large {n : ℕ} (h : ¬ n < 10) :
    natDecimal n = natDecimal (n / 10) ++ [digitChar (n % 10)] := by
  rw [natDecimal]
  exact dif_neg h

theorem natDecimal_ne_nil (n : ℕ) : natDecimal n ≠ [] := by
  by_cases h : n < 10
  · rw [natDecimal_eq_small h]
    simp
  · rw [natDecimal_eq_large h]
    simp

theorem natDecimal_mem (n : ℕ) : ∀ c ∈ natDecimal n, ∃ d, d < 10 ∧ c = digitChar d := by
  induction n using Nat.strong_induction_on with
  | _ n ih =>
    intro c hc
    by_cases h : n < 10
    · rw [natDecimal_eq_small h] at hc
      simp at hc
      exact ⟨n, h, hc⟩
    · rw [natDecimal_eq_large h] at hc
      rcases List.mem_append.mp hc with h1 | h2
      · exact ih (n / 10) (Nat.div_lt_self (by omega) (by omega)) c h1
      · simp at h2
        exact ⟨n % 10, Nat.mod_lt _ (by omega), h2⟩

theorem append_singleton_inj {α : Type} {a b : List α} {x y : α}
    (h : a ++ [x] = b ++ [y]) : a = b ∧ x = y := by
  have h' := congrArg List.reverse h
  simp only [List.reverse_append, List.reverse_cons, List.reverse_nil, List.nil_append,
    List.cons_append] at h'
  obtain ⟨hxy, hab⟩ := List.cons.inj h'
  exact ⟨by simpa using congrArg List.reverse hab, hxy⟩

theorem natDecimal_inj (n : ℕ) : ∀ m, natDecimal n = natDecimal m → n = m := by
  induction n using Nat.strong_induction_on with
  | _ n ih =>
    intro m h
    by_cases h1 : n < 10 <;> by_cases h2 : m < 10
    · rw [natDecimal_eq_small h1, natDecimal_eq_small h2] at h
      simp at h
      exact digitChar_inj n h1 m h2 h
    · rw [natDecimal_eq_small h1, natDecimal_eq_large h2] at h
      have hlen := congrArg List.length h
      simp only [List.length_append, List.length_cons, List.length_nil] at hlen
      have h0 : (natDecimal (m / 10)).length = 0 := by omega
      exact absurd (List.length_eq_zero.mp h0) (natDecimal_ne_nil _)
    · rw [natDecimal_eq_large h1, natDecimal_eq_small h2] at h
      have hlen := congrArg List.length h
      simp only [List.length_append, List.length_cons, List.length_nil] at hlen
      have h0 : (natDecimal (n / 10)).length = 0 := by omega
      exact absurd (List.length_eq_zero.mp h0) (natDecimal_ne_nil _)
    · rw [natDecimal_eq_large h1, natDecimal_eq_large h2] at h
      obtain ⟨hpre, hdig⟩ := append_singleton_inj h
      have e1 := ih (n / 10) (Nat.div_lt_self (by omega) (by omega)) (m / 10) hpre
      have e2 := digitChar_inj (n % 10) (Nat.mod_lt _ (by omega)) (m % 10)
        (Nat.mod_lt _ (by omega)) hdig
      omega

theorem pad6_mem {m : ℕ} {c : Char} (h : c ∈ pad6 m) : ∃ d, d < 10 ∧ c = digitChar d := by
  simp only [pad6, List.mem_cons, List.not_mem_nil, or_false] at h
  rcases h with h | h | h | h | h | h <;>
    exact ⟨_, Nat.mod_lt _ (by omega), h⟩

theorem pad6_inj {m m' : ℕ} (hm : m < 1000000) (hm' : m' < 1000000)
    (h : pad6 m = pad6 m') : m = m' := by
  simp only [pad6, List.cons.injEq, and_true] at h
  obtain ⟨h1, h2, h3, h4, h5, h6⟩ := h
  have e1 := digitChar_inj _ (Nat.mod_lt _ (by omega)) _ (Nat.mod_lt _ (by omega)) h1
  have e2 := digitChar_inj _ (Nat.mod_lt _ (by omega)) _ (Nat.mod_lt _ (by omega)) h2
  have e3 := digitChar_inj _ (Nat.mod_lt _ (by omega)) _ (Nat.mod_lt _ (by omega)) h3
  have e4 := digitChar_inj _ (Nat.mod_lt _ (by omega)) _ (Nat.mod_lt _ (by omega)) h4
  have e5 := digitChar_inj _ (Nat.mod_lt _ (by omega)) _ (Nat.mod_lt _ (by omega)) h5
  have e6 := digitChar_inj _ (Nat.mod_lt _ (by omega)) _ (Nat.mod_lt _ (by omega)) h6
  omega

end LibraValidation

namespace LibraValidation

/-! ### Splitting strings at a reserved separator -/

theorem sep_split {sep : Char} : ∀ (a b x y : Str), sep ∉ a → sep ∉ b →
    a ++ sep :: x = b ++ sep :: y → a = b ∧ x = y := by
  intro a
  induction a with
  | nil =>
    intro b x y _ hb h
    cases b with
    | nil => simpa using h
    | cons c cs =>
      simp only [List.nil_append, List.cons_append, List.cons.injEq] at h
      exact absurd (h.1 ▸ List.mem_cons_self c cs) hb
  | cons c cs ih =>
    intro b x y ha hb h
    cases b with
    | nil =>
      simp only [List.nil_append, List.cons_append, List.cons.injEq] at h
      exact absurd (h.1 ▸ List.mem_cons_self c cs) (by simpa [h.1] using ha)
    | cons d ds =>
      simp only [List.cons_append, List.cons.injEq] at h
      obtain ⟨hcd, ht⟩ := h
      have ha' : sep ∉ cs := fun hm => ha (List.mem_cons_of_mem _ hm)
      have hb' : sep ∉ ds := fun hm => hb (List.mem_cons_of_mem _ hm)
      obtain ⟨h1, h2⟩ := ih ds x y ha' hb' ht
      exact ⟨by rw [hcd, h1], h2⟩

/-! ### `decimal6` and `format_value`: character inventory and injectivity -/

theorem dot_not_mem_natDecimal (n : ℕ) : '.' ∉ natDecimal n := by
  intro h
  obtain ⟨d, hd, hc⟩ := natDecimal_mem n _ h
  exact (digitChar_not_special d hd).1 hc.symm

theorem decimal6_mem {n : ℕ} {c : Char} (h : c ∈ decimal6 n) :
    c = '.' ∨ ∃ d, d < 10 ∧ c = digitChar d := by
  unfold decimal6 at h
  rcases List.mem_append.mp h with h1 | h2
  · exact .inr (natDecimal_mem _ c h1)
  · rcases List.mem_cons.mp h2 with h3 | h4
    · exact .inl h3
    · exact .inr (pad6_mem h4)

theorem decimal6_inj {n n' : ℕ} (h : decimal6 n = decimal6 n') : n = n' := by
  unfold decimal6 at h
  obtain ⟨h1, h2⟩ := sep_split _ _ _ _ (dot_not_mem_natDecimal _) (dot_not_mem_natDecimal _) h
  have e1 := natDecimal_inj _ _ h1
  have e2 := pad6_inj (Nat.mod_lt _ (by norm_num)) (Nat.mod_lt _ (by norm_num)) h2
  omega

theorem dash_not_mem_decimal6 (n : ℕ) : '-' ∉ decimal6 n := by
  intro h
  rcases decimal6_mem h with h1 | ⟨d, hd, hc⟩
  · exact absurd h1 (by decide)
  · exact (digitChar_not_special d hd).2.1 hc.symm

theorem format6_mem {x : PyFloat} {c : Char} (h : c ∈ format6 x) :
    c = '-' ∨ c = '.' ∨ ∃ d, d < 10 ∧ c = digitChar d := by
  unfold format6 at h
  rcases List.mem_append.mp h with h1 | h2
  · left
    rcases hx : x.neg with _ | _ <;> rw [hx] at h1 <;> simpa using h1
  · rcases decimal6_mem h2 with h3 | h4
    · exact .inr (.inl h3)
    · exact .inr (.inr h4)

theorem format6_not_bar (x : PyFloat) : '|' ∉ format6 x := by
  intro h
  rcases format6_mem h with h1 | h1 | ⟨d, hd, hc⟩
  · exact absurd h1 (by decide)
  · exact absurd h1 (by decide)
  · exact (digitChar_not_special d hd).2.2.2 hc.symm

theorem format6_not_comma (x : PyFloat) : ',' ∉ format6 x := by
  intro h
  rcases format6_mem h with h1 | h1 | ⟨d, hd, hc⟩
  · exact absurd h1 (by decide)
  · exact absurd h1 (by decide)
  · exact (digitChar_not_special d hd).2.2.1 hc.symm

theorem format6_ne_nil (x : PyFloat) : format6 x ≠ [] := by
  unfold format6 decimal6
  intro h
  rcases List.append_eq_nil.mp h with ⟨_, h2⟩
  rcases List.append_eq_nil.mp h2 with ⟨_, h3⟩
  exact List.cons_ne_nil _ _ h3

theorem format_value_not_bar (x : PyFloat) : '|' ∉ format_value x := by
  unfold format_value
  split <;> apply format6_not_bar

theorem format_value_not_comma (x : PyFloat) : ',' ∉ format_value x := by
  unfold format_value
  split <;> apply format6_not_comma

theorem rhe_zero : rhe (0 : ℚ) = 0 := by
  have h := rhe_intCast 0
  simpa using h

theorem val_eq_zero_iff (x : PyFloat) : x.val = 0 ↔ x.mag = 0 := by
  unfold PyFloat.val
  split <;> simp

theorem format_value_eq_keyFormat {x : PyFloat} (hx : x.WF) :
    format_value x = keyFormat (canonKey x) := by
  unfold format_value canonKey keyFormat
  by_cases h0 : x.val = 0
  · rw [if_pos h0, if_pos h0]
    unfold format6
    simp [rhe_zero]
  · rw [if_neg h0, if_neg h0]
    unfold format6
    rfl

theorem canonKey_snd_nonneg {x : PyFloat} (hx : x.WF) : 0 ≤ (canonKey x).2 := by
  unfold canonKey
  split
  · simp
  · exact rhe_nonneg (mul_nonneg hx (by norm_num))

theorem keyFormat_inj {k k' : Bool × ℤ} (hk : 0 ≤ k.2) (hk' : 0 ≤ k'.2)
    (h : keyFormat k = keyFormat k') : k = k' := by
  rcases k with ⟨b, n⟩
  rcases k' with ⟨b', n'⟩
  dsimp at hk hk'
  unfold keyFormat at h
  dsimp at h
  cases b <;> cases b' <;> simp only [if_pos, if_neg, List.nil_append, List.cons_append,
    List.singleton_append, Bool.false_eq_true, if_false, if_true] at h
  · have := decimal6_inj h
    simp only [Prod.mk.injEq, true_and]
    omega
  · exact absurd (h ▸ List.mem_cons_self '-' _) (dash_not_mem_decimal6 _)
  · exact absurd (h.symm ▸ List.mem_cons_self '-' _) (dash_not_mem_decimal6 _)
  · obtain ⟨-, h⟩ := List.cons.inj h
    have := decimal6_inj h
    simp only [Prod.mk.injEq, true_and]
    omega

theorem format_value_inj {x y : PyFloat} (hx : x.WF) (hy : y.WF) :
    format_value x = format_value y ↔ canonKey x = canonKey y := by
  constructor
  · intro h
    rw [format_value_eq_keyFormat hx, format_value_eq_keyFormat hy] at h
    exact keyFormat_inj (canonKey_snd_nonneg hx) (canonKey_snd_nonneg hy) h
  · intro h
    rw [format_value_eq_keyFormat hx, format_value_eq_keyFormat hy, h]

end LibraValidation

namespace LibraValidation

/-! ### Canonical strings determine the canonical keys -/

theorem rowStr_ne_nil (r : Row) : rowStr r ≠ [] := by
  unfold rowStr
  intro h
  rcases List.append_eq_nil.mp h with ⟨-, h2⟩
  exact List.cons_ne_nil _ _ h2

theorem bar_not_mem_rowStr (r : Row) : '|' ∉ rowStr r := by
  unfold rowStr
  intro h
  rcases List.mem_append.mp h with h1 | h2
  · exact format_value_not_bar _ h1
  · rcases List.mem_cons.mp h2 with h3 | h4
    · exact absurd h3 (by decide)
    · exact format_value_not_bar _ h4

theorem joinSep_inj {sep : Char} : ∀ (l1 l2 : List Str),
    (∀ s ∈ l1, s ≠ [] ∧ sep ∉ s) → (∀ s ∈ l2, s ≠ [] ∧ sep ∉ s) →
    joinSep sep l1 = joinSep sep l2 → l1 = l2 := by
  intro l1
  induction l1 with
  | nil =>
    intro l2 _ h2 h
    cases l2 with
    | nil => rfl
    | cons s t =>
      exfalso
      cases t with
      | nil =>
        simp only [joinSep] at h
        exact (h2 s (by simp)).1 h.symm
      | cons a u =>
        simp only [joinSep] at h
        have hlen := congrArg List.length h
        simp [List.length_append] at hlen
        omega
  | cons s t ih =>
    intro l2 h1 h2 h
    cases l2 with
    | nil =>
      exfalso
      cases t with
      | nil =>
        simp only [joinSep] at h
        exact (h1 s (by simp)).1 h
      | cons a u =>
        simp only [joinSep] at h
        have hlen := congrArg List.length h
        simp [List.length_append] at hlen
    | cons s' t' =>
      cases t with
      | nil =>
        cases t' with
        | nil =>
          simp only [joinSep] at h
          rw [h]
        | cons a' u' =>
          exfalso
          simp only [joinSep] at h
          have hmem : sep ∈ s := by
            rw [h]
            exact List.mem_append_right _ (List.mem_cons_self _ _)
          exact (h1 s (by simp)).2 hmem
      | cons a u =>
        cases t' with
        | nil =>
          exfalso
          simp only [joinSep] at h
          have hmem : sep ∈ s' := by
            rw [← h]
            exact List.mem_append_right _ (List.mem_cons_self _ _)
          exact (h2 s' (by simp)).2 hmem
        | cons a' u' =>
          simp only [joinSep] at h
          obtain ⟨hs, hj⟩ := sep_split s s' _ _ (h1 s (by simp)).2 (h2 s' (by simp)).2 h
          have ht := ih (a' :: u') (fun x hx => h1 x (List.mem_cons_of_mem _ hx))
            (fun x hx => h2 x (List.mem_cons_of_mem _ hx)) hj
          rw [hs, ht]

theorem rowStr_inj {r r' : Row} (h1 : r.1.WF ∧ r.2.WF) (h2 : r'.1.WF ∧ r'.2.WF) :
    rowStr r = rowStr r' ↔ canonRow r = canonRow r' := by
  unfold rowStr canonRow
  constructor
  · intro h
    obtain ⟨ha, hb⟩ := sep_split _ _ _ _ (format_value_not_comma _) (format_value_not_comma _) h
    rw [Prod.mk.injEq]
    exact ⟨(format_value_inj h1.1 h2.1).mp ha, (format_value_inj h1.2 h2.2).mp hb⟩
  · intro h
    rw [Prod.mk.injEq] at h
    rw [(format_value_inj h1.1 h2.1).mpr h.1, (format_value_inj h1.2 h2.2).mpr h.2]

theorem map_rowStr_iff : ∀ (A B : List Row), (∀ r ∈ A, r.1.WF ∧ r.2.WF) →
    (∀ r ∈ B, r.1.WF ∧ r.2.WF) →
    (A.map rowStr = B.map rowStr ↔ A.map canonRow = B.map canonRow) := by
  intro A
  induction A with
  | nil =>
    intro B _ _
    cases B with
    | nil => simp
    | cons b bs => simp
  | cons a as ih =>
    intro B hA hB
    cases B with
    | nil => simp
    | cons b bs =>
      simp only [List.map_cons, List.cons.injEq]
      have hh := rowStr_inj (hA a (by simp)) (hB b (by simp))
      have ht := ih bs (fun r hr => hA r (by simp [hr])) (fun r hr => hB r (by simp [hr]))
      rw [hh, ht]

theorem concat_iff_canon (A B : List Row) (hA : ∀ r ∈ A, r.1.WF ∧ r.2.WF)
    (hB : ∀ r ∈ B, r.1.WF ∧ r.2.WF) :
    concatStr A = concatStr B ↔ A.map canonRow = B.map canonRow := by
  unfold concatStr
  constructor
  · intro h
    have hmap := joinSep_inj (A.map rowStr) (B.map rowStr)
      (by
        intro s hs
        obtain ⟨r, hr, rfl⟩ := List.mem_map.mp hs
        exact ⟨rowStr_ne_nil r, bar_not_mem_rowStr r⟩)
      (by
        intro s hs
        obtain ⟨r, hr, rfl⟩ := List.mem_map.mp hs
        exact ⟨rowStr_ne_nil r, bar_not_mem_rowStr r⟩) h
    exact (map_rowStr_iff A B hA hB).mp hmap
  · intro h
    rw [(map_rowStr_iff A B hA hB).mpr h]

theorem exactMatched_iff_canon (A B : List Row) (hA : ∀ r ∈ A, r.1.WF ∧ r.2.WF)
    (hB : ∀ r ∈ B, r.1.WF ∧ r.2.WF) :
    exactMatched A B = true ↔ A.map canonRow = B.map canonRow := by
  unfold exactMatched hash_columns
  rw [decide_eq_true_eq]
  exact concat_iff_canon A B hA hB

theorem specRound6_eq (x : PyFloat) :
    specRound6 x = if x.neg then -rhe (x.mag * 1000000) else rhe (x.mag * 1000000) := by
  unfold specRound6 PyFloat.val
  by_cases h : x.neg
  · rw [if_pos h, if_pos h, show -x.mag * 1000000 = -(x.mag * 1000000) by ring, rhe_neg]
  · rw [if_neg h, if_neg h]

theorem canonKey_determines_specRound {x y : PyFloat} (h : canonKey x = canonKey y) :
    specRound6 x = specRound6 y := by
  unfold canonKey at h
  by_cases h1 : x.val = 0 <;> by_cases h2 : y.val = 0
  · unfold specRound6
    rw [h1, h2]
  · rw [if_pos h1, if_neg h2, Prod.mk.injEq] at h
    rw [show specRound6 x = 0 by unfold specRound6; rw [h1, zero_mul, rhe_zero]]
    rw [specRound6_eq y, if_neg (by rw [← h.1]; exact Bool.false_ne_true), ← h.2]
  · rw [if_neg h1, if_pos h2, Prod.mk.injEq] at h
    rw [show specRound6 y = 0 by unfold specRound6; rw [h2, zero_mul, rhe_zero]]
    rw [specRound6_eq x, if_neg (by rw [h.1]; exact Bool.false_ne_true), h.2]
  · rw [if_neg h1, if_neg h2, Prod.mk.injEq] at h
    rw [specRound6_eq x, specRound6_eq y, h.1, h.2]

end LibraValidation

namespace LibraValidation

/-! ### The header scan returns the first match in reading order -/

theorem optOr_none (x : Option ℕ) : optOr x none = x := by
  cases x <;> rfl

theorem liaTok_ne_assetTok : liaTok ≠ assetTok := by decide

theorem cellTokenMatch_unique {c : Cell} {t1 t2 : Str} (h : t1 ≠ t2)
    (hm : cellTokenMatch c t1 = true) : cellTokenMatch c t2 = false := by
  cases c with
  | na => rfl
  | num x => rfl
  | str s =>
    unfold cellTokenMatch at *
    simp only [decide_eq_true_eq] at hm
    simp only [decide_eq_false_iff_not]
    rw [hm]
    exact h

theorem scanCells_eq : ∀ (cs : List Cell) (i : ℕ) (l a : Option ℕ),
    scanCells cs i l a =
      (optOr l (rowFirstMatch liaTok cs i), optOr a (rowFirstMatch assetTok cs i)) := by
  intro cs
  induction cs with
  | nil =>
    intro i l a
    simp [scanCells, rowFirstMatch, optOr_none]
  | cons c cs ih =>
    intro i l a
    unfold scanCells rowFirstMatch
    by_cases hl : l = none ∧ cellTokenMatch c liaTok = true
    · rw [if_pos hl, ih]
      obtain ⟨hl1, hl2⟩ := hl
      subst hl1
      have hna : ¬ (cellTokenMatch c assetTok = true) := by
        rw [cellTokenMatch_unique liaTok_ne_assetTok hl2]
        simp
      rw [if_pos hl2, if_neg hna]
      simp [optOr]
    · rw [if_neg hl]
      by_cases ha : a = none ∧ cellTokenMatch c assetTok = true
      · rw [if_pos ha, ih]
        obtain ⟨ha1, ha2⟩ := ha
        subst ha1
        rcases l with _ | v
        · have h1 : ¬ (cellTokenMatch c liaTok = true) := fun hm => hl ⟨rfl, hm⟩
          rw [if_neg h1, if_pos ha2]
          simp [optOr]
        · rw [if_pos ha2]
          simp [optOr]
      · rw [if_neg ha, ih]
        rcases l with _ | v <;> rcases a with _ | w
        · have h1 : ¬ (cellTokenMatch c liaTok = true) := fun hm => hl ⟨rfl, hm⟩
          have h2 : ¬ (cellTokenMatch c assetTok = true) := fun hm => ha ⟨rfl, hm⟩
          rw [if_neg h1, if_neg h2]
        · have h1 : ¬ (cellTokenMatch c liaTok = true) := fun hm => hl ⟨rfl, hm⟩
          rw [if_neg h1]
          simp [optOr]
        · have h2 : ¬ (cellTokenMatch c assetTok = true) := fun hm => ha ⟨rfl, hm⟩
          rw [if_neg h2]
          simp [optOr]
        · simp [optOr]

theorem findColsAux_eq : ∀ (rows : Sheet) (l a : Option ℕ),
    findColsAux rows l a =
      (optOr l (firstMatchCol liaTok rows), optOr a (firstMatchCol assetTok rows)) := by
  intro rows
  induction rows with
  | nil =>
    intro l a
    simp [findColsAux, firstMatchCol, optOr_none]
  | cons row rest ih =>
    intro l a
    unfold findColsAux firstMatchCol
    rw [scanCells_eq]
    rcases l with _ | lv <;> rcases a with _ | av <;>
      rcases hrl : rowFirstMatch liaTok row 0 with _ | rl <;>
      rcases hra : rowFirstMatch assetTok row 0 with _ | ra <;>
      simp [optOr, ih]

theorem findCols_eq_firstMatch (s : Sheet) :
    findCols s = (firstMatchCol liaTok s, firstMatchCol assetTok s) := by
  unfold findCols
  rw [findColsAux_eq]
  rfl

/-! ### The comparison loop counts matching rows over every index -/

theorem compareLoop_eq (df1 df2 : List Row) :
    ∀ n, compareLoop df1 df2 n = (matchingCount df1 df2 n, n) := by
  intro n
  induction n with
  | zero => rfl
  | succ n ih =>
    unfold compareLoop
    rw [ih]
    unfold matchingCount
    rw [List.range_succ, List.filter_append, List.length_append]
    by_cases h : rowMatchB (df1[n]?.getD (⟨false, 0⟩, ⟨false, 0⟩))
        (df2[n]?.getD (⟨false, 0⟩, ⟨false, 0⟩)) = true
    · simp [List.filter_cons, List.filter_nil, h]
    · simp [List.filter_cons, List.filter_nil, h]

end LibraValidation


namespace LibraValidation

/-! ### Row labels and value cells -/

theorem rowLabel_empty_cells : ∀ (row : List Cell), rowLabel row = [] →
    ∀ c ∈ row, cellRepr c = [] := by
  intro row
  induction row with
  | nil =>
    intro _ c hc
    simp at hc
  | cons d ds ih =>
    intro h c hc
    unfold rowLabel at h
    by_cases hd : cellRepr d ≠ []
    · rw [if_pos hd] at h
      exact absurd h hd
    · rw [if_neg hd] at h
      push_neg at hd
      rcases List.mem_cons.mp hc with rfl | hm
      · exact hd
      · exact ih h c hm

theorem cellRepr_empty_not_num {c : Cell} (h : cellRepr c = []) :
    floatOrZero c = none ∨ c = .na := by
  cases c with
  | na => exact .inr rfl
  | str s => exact .inl rfl
  | num x => exact absurd h (format6_ne_nil x)

theorem getD_na_or_mem : ∀ (row : List Cell) (i : ℕ),
    row.getD i .na = .na ∨ row.getD i .na ∈ row := by
  intro row
  induction row with
  | nil =>
    intro i
    left
    cases i <;> rfl
  | cons c cs ih =>
    intro i
    cases i with
    | zero =>
      right
      rw [List.getD_cons_zero]
      exact List.mem_cons_self _ _
    | succ n =>
      rw [List.getD_cons_succ]
      rcases ih n with h | h
      · exact .inl h
      · exact .inr (List.mem_cons_of_mem _ h)

theorem map_canon_to_specRound : ∀ (A B : List Row),
    A.map canonRow = B.map canonRow → A.map specRoundRow = B.map specRoundRow := by
  intro A
  induction A with
  | nil =>
    intro B h
    cases B with
    | nil => rfl
    | cons b bs => simp at h
  | cons a as ih =>
    intro B h
    cases B with
    | nil => simp at h
    | cons b bs =>
      simp only [List.map_cons, List.cons.injEq] at h ⊢
      obtain ⟨h1, h2⟩ := h
      constructor
      · unfold canonRow at h1
        rw [Prod.mk.injEq] at h1
        unfold specRoundRow
        rw [canonKey_determines_specRound h1.1, canonKey_determines_specRound h1.2]
      · exact ih bs h2

end LibraValidation

namespace LibraValidation

/-! ## Claim theorems -/

/-- C7: canonicalization normalizes every representation of zero to one
canonical zero before formatting: the single row `(0.0, -0.0)` yields the
same canonical string and digest as the single row `(0, 0)`, namely
`"0.000000,0.000000"`. -/
theorem c7_zero_normalization :
    hash_columns [(⟨false, 0⟩, ⟨true, 0⟩)] = hash_columns [(⟨false, 0⟩, ⟨false, 0⟩)] ∧
    (hash_columns [(⟨false, 0⟩, ⟨true, 0⟩)]).2 = ("0.000000,0.000000").data := by
  exact ⟨by with_unfolding_all rfl, by with_unfolding_all rfl⟩

/-- C8: each call of the Verdict Recorder appends exactly one line of the
form `[<timestamp>] <file_name> | <status>` to the log, with status
`"correct"` iff the match is `True` (and `"wrong"` for `False` or `None`);
all previously written lines are unchanged, and calling it twice appends
two lines rather than overwriting. -/
theorem c8_verdict_recorder (log : List Str) (ts fn : Str) (m : Option Bool) :
    log_validation_result log ts fn m = log ++ [logLine ts fn m] ∧
    logLine ts fn m =
      ('[' :: ts) ++ (']' :: ' ' :: fn) ++ (' ' :: '|' :: ' ' :: statusStr m) ++ ['\n'] ∧
    (statusStr m = ("correct").data ↔ m = some true) ∧
    (statusStr m = ("wrong").data ↔ m ≠ some true) ∧
    (∀ i, i < log.length → (log_validation_result log ts fn m)[i]? = log[i]?) ∧
    log_validation_result (log_validation_result log ts fn m) ts fn m =
      log ++ [logLine ts fn m, logLine ts fn m] := by
  refine ⟨rfl, rfl, ?_, ?_, ?_, ?_⟩
  · unfold statusStr
    by_cases h : m = some true
    · rw [if_pos h]
      simp [h]
    · rw [if_neg h]
      constructor
      · intro hc
        exact absurd hc (by decide)
      · intro hc
        exact absurd hc h
  · unfold statusStr
    by_cases h : m = some true
    · rw [if_pos h]
      constructor
      · intro hc
        exact absurd hc (by decide)
      · intro hc
        exact absurd h hc
    · rw [if_neg h]
      simp [h]
  · intro i hi
    unfold log_validation_result
    rw [List.getElem?_append, if_pos hi]
  · unfold log_validation_result
    simp

/-- C8 witness: a concrete call appends its single formatted line, and
`True` records `"correct"`. -/
theorem c8_verdict_recorder_witness :
    log_validation_result ([] : List Str) ([] : Str) ("f").data (some true) =
      [logLine ([] : Str) ("f").data (some true)] ∧
    statusStr (some true) = ("correct").data := by
  exact ⟨(c8_verdict_recorder ([] : List Str) ([] : Str) ("f").data (some true)).1,
    (c8_verdict_recorder ([] : List Str) ([] : Str) ("f").data (some true)).2.2.1.mpr rfl⟩

/-- C10: the fuzzy per-field tolerance boundary is exclusive — a field
pair whose absolute difference is exactly 0.001 does not match, and a row
matches exactly when both of its field pairs differ by strictly less than
0.001. -/
theorem c10_exclusive_tolerance (a b : Row) :
    (|a.1.val - b.1.val| = 1/1000 → rowMatchB a b = false) ∧
    (rowMatchB a b = true ↔
      |a.1.val - b.1.val| < 1/1000 ∧ |a.2.val - b.2.val| < 1/1000) := by
  constructor
  · intro h
    have h1 : ¬ (|a.1.val - b.1.val| < 1/1000) := by
      rw [h]
      exact lt_irrefl _
    unfold rowMatchB
    rw [decide_eq_false h1]
    rfl
  · unfold rowMatchB
    rw [Bool.and_eq_true, decide_eq_true_eq, decide_eq_true_eq]

set_option maxRecDepth 20000 in
/-- C10 witness: a pair of rows whose first fields differ by exactly 0.001
is not counted as matching. -/
theorem c10_exclusive_tolerance_witness :
    rowMatchB (⟨false, 1/1000⟩, ⟨false, 0⟩) zeroRow = false :=
  (c10_exclusive_tolerance (⟨false, 1/1000⟩, ⟨false, 0⟩) zeroRow).1
    (by with_unfolding_all decide)

/-- C4: fuzzy mode falls back to exact-mode hashing whenever the row-count
difference exceeds 2, and likewise whenever `min(rows_a, rows_b) = 0`. -/
theorem c4_rowcount_guard (df1 df2 : List Row) :
    (2 < Nat.dist df1.length df2.length → fuzzyValidate df1 df2 = hashMatch df1 df2) ∧
    (min df1.length df2.length = 0 → fuzzyValidate df1 df2 = hashMatch df1 df2) := by
  constructor
  · intro h
    unfold fuzzyValidate
    rw [if_neg (by omega)]
  · intro h
    unfold fuzzyValidate
    by_cases hd : Nat.dist df1.length df2.length ≤ 2
    · rw [if_pos hd]
      dsimp only
      rw [h, compareLoop_eq]
      rfl
    · rw [if_neg hd]

set_option maxRecDepth 40000 in
/-- C4 witness: ten rows against thirteen rows (difference 3) fall back to
exact hashing and mismatch even though every compared row is identical. -/
theorem c4_rowcount_guard_witness :
    2 < Nat.dist dfTen.length dfThirteen.length ∧
    fuzzyValidate dfTen dfThirteen = hashMatch dfTen dfThirteen ∧
    fuzzyValidate dfTen dfThirteen = false := by
  refine ⟨by with_unfolding_all decide,
    (c4_rowcount_guard dfTen dfThirteen).1 (by with_unfolding_all decide),
    by with_unfolding_all rfl⟩

/-- C1: in fuzzy mode with row-count difference at most 2 and
`n = min(rows_a, rows_b) > 0`, every index `i ∈ [0, n)` is compared
field-wise with the absolute tolerance 0.001 (`matchingCount`), and the
verdict is `matched = (matching_rows / n * 100 ≥ 80)`. -/
theorem c1_fuzzy_threshold (df1 df2 : List Row)
    (hdiff : Nat.dist df1.length df2.length ≤ 2)
    (hn : 0 < min df1.length df2.length) :
    fuzzyValidate df1 df2 = true ↔
      ((matchingCount df1 df2 (min df1.length df2.length) : ℚ) /
        ((min df1.length df2.length : ℕ) : ℚ)) * 100 ≥ 80 := by
  unfold fuzzyValidate
  rw [if_pos hdiff]
  dsimp only
  rw [compareLoop_eq]
  dsimp only
  rw [if_pos hn, decide_eq_true_eq]

set_option maxRecDepth 20000 in
/-- C1 witness: with n = 10 and exactly 8 rows within tolerance the datasets
match (80% ≥ 80%); with exactly 7 they do not (70% < 80%). -/
theorem c1_fuzzy_threshold_witness :
    fuzzyValidate dfTen dfEight = true ∧ fuzzyValidate dfTen dfSeven = false := by
  constructor
  · exact (c1_fuzzy_threshold dfTen dfEight (by with_unfolding_all decide)
      (by with_unfolding_all decide)).mpr (by with_unfolding_all decide)
  · have h := c1_fuzzy_threshold dfTen dfSeven (by with_unfolding_all decide)
      (by with_unfolding_all decide)
    rw [Bool.eq_false_iff]
    intro ht
    exact absurd (h.mp ht) (by with_unfolding_all decide)

end LibraValidation

namespace LibraValidation

set_option maxRecDepth 20000 in
/-- C3 counterexample: the two single-row datasets `[(-0.0000001, 1.0)]`
and `[(0.0000001, 1.0)]` are identical after 6-decimal rounding and
zero-normalization (both round to `(0, 1000000)` millionths), yet exact
mode formats them as `"-0.000000,1.000000"` versus `"0.000000,1.000000"`
and reports a mismatch — the claim's "always match" direction fails. -/
theorem c3_sign_of_zero_counterexample :
    List.map specRoundRow [(negTiny, oneRow.1)] = List.map specRoundRow [(posTiny, oneRow.1)] ∧
    exactMatched [(negTiny, oneRow.1)] [(posTiny, oneRow.1)] = false ∧
    (hash_columns [(negTiny, oneRow.1)]).2 = ("-0.000000,1.000000").data ∧
    (hash_columns [(posTiny, oneRow.1)]).2 = ("0.000000,1.000000").data := by
  exact ⟨by with_unfolding_all rfl, by with_unfolding_all rfl,
    by with_unfolding_all rfl, by with_unfolding_all rfl⟩

/-- C3 amended: exact mode compares digests of the two canonical strings;
`matched = true` exactly when the datasets agree pointwise in canonical
key — the sign bit (after normalizing exact zeros to `+0`) together with
the magnitude rounded half-even at six decimals.  Equal canonical keys
entail equal values after signed 6-decimal rounding, so any cell that
differs after rounding, and any row-count difference, yields
`matched = false`; datasets identical after rounding additionally need
agreeing signs (a negative value rounding to zero keeps its minus sign). -/
theorem c3_exact_mode_amended (A B : List Row)
    (hA : ∀ r ∈ A, r.1.WF ∧ r.2.WF) (hB : ∀ r ∈ B, r.1.WF ∧ r.2.WF) :
    (exactMatched A B = true ↔ A.map canonRow = B.map canonRow) ∧
    (A.map canonRow = B.map canonRow → A.map specRoundRow = B.map specRoundRow) ∧
    (A.length ≠ B.length → exactMatched A B = false) := by
  refine ⟨exactMatched_iff_canon A B hA hB, map_canon_to_specRound A B, ?_⟩
  intro hlen
  rw [Bool.eq_false_iff]
  intro ht
  have hmap := (exactMatched_iff_canon A B hA hB).mp ht
  have hl := congrArg List.length hmap
  simp only [List.length_map] at hl
  exact hlen hl

/-- C3 witness: equal-keyed one-row datasets match; datasets of different
lengths never match. -/
theorem c3_exact_mode_amended_witness :
    exactMatched [oneRow] [oneRow] = true ∧
    exactMatched [oneRow] [zeroRow, oneRow] = false := by
  constructor
  · exact (c3_exact_mode_amended [oneRow] [oneRow]
      (by with_unfolding_all decide) (by with_unfolding_all decide)).1.mpr rfl
  · exact (c3_exact_mode_amended [oneRow] [zeroRow, oneRow]
      (by with_unfolding_all decide) (by with_unfolding_all decide)).2.2 (by decide)

/-- C5: every caught failure — extraction errors in the Excel branch,
missing document-intelligence inputs in the MSG branch — does not escape:
the attempt resolves with the error description in the `error` field, the
Verdict Recorder is invoked with a `False` match, and exactly one log line
with status `"wrong"` is appended. -/
theorem c5_error_handling (log : List Str) (ts fn : Str) (wb dbib : Sheet)
    (llm : List Row) (e : Str) (docint tbl : Option (List Row)) :
    (extractExcelData wb dbib = .error e →
      runExcel log ts fn wb dbib llm =
        (.failure e, log ++ [logLine ts fn (some false)])) ∧
    ((docint = none ∨ tbl = none) →
      runMsg log ts fn docint tbl =
        (.failure missingMsg, log ++ [logLine ts fn (some false)])) ∧
    statusStr (some false) = ("wrong").data := by
  refine ⟨?_, ?_, rfl⟩
  · intro h
    unfold runExcel excelValidate
    rw [h]
    rfl
  · intro h
    unfold runMsg msgValidate
    rcases h with h | h
    · subst h
      cases tbl <;> rfl
    · subst h
      cases docint <;> rfl

/-- C5 witness: a workbook missing the `Asset` header resolves to the
missing-columns failure plus a `"wrong"` log line, and a missing
document-intelligence input resolves to its failure plus a `"wrong"`
log line. -/
theorem c5_error_handling_witness :
    runExcel ([] : List Str) ([] : Str) ("f").data wbNoAsset wbNoAsset [] =
      (.failure colErrMsg, [logLine ([] : Str) ("f").data (some false)]) ∧
    runMsg ([] : List Str) ([] : Str) ("f").data none (some []) =
      (.failure missingMsg, [logLine ([] : Str) ("f").data (some false)]) := by
  constructor
  · exact (c5_error_handling ([] : List Str) ([] : Str) ("f").data wbNoAsset wbNoAsset []
      colErrMsg none (some [])).1 (by with_unfolding_all rfl)
  · exact (c5_error_handling ([] : List Str) ([] : Str) ("f").data wbNoAsset wbNoAsset []
      colErrMsg none (some [])).2.1 (.inl rfl)

/-- C6: a data row is skipped whenever its label (the first non-empty
cell) contains the token `"Total"` but not the phrase `"HY Total"`; in
particular a `"Grand Total"` row is excluded while an `"HY Total"` row is
retained with its rounded values. -/
theorem c6_total_filter :
    (∀ (l a : ℕ) (row : List Cell),
      containsSub totalTok (rowLabel row) = true →
      containsSub hyTok (rowLabel row) = false →
      processRow l a row = none) ∧
    processRow 1 2 grandTotalRow = none ∧
    processRow 1 2 hyTotalRow = some (⟨false, 1⟩, ⟨false, 2⟩) := by
  refine ⟨?_, by with_unfolding_all rfl, by with_unfolding_all rfl⟩
  intro l a row hT hH
  simp only [processRow]
  by_cases hna : row.getD l Cell.na = Cell.na ∧ row.getD a Cell.na = Cell.na
  · rw [if_pos hna]
  · rw [if_neg hna, if_pos ⟨hT, by simp [hH]⟩]

/-- C6 witness: a row labelled `"Running Total"` (contains `"Total"`, not
`"HY Total"`) is excluded. -/
theorem c6_total_filter_witness :
    processRow 1 2 [Cell.str ("Running Total").data, Cell.num ⟨false, 5⟩,
      Cell.num ⟨false, 6⟩] = none :=
  c6_total_filter.1 1 2 _ (by with_unfolding_all rfl) (by with_unfolding_all rfl)

end LibraValidation

namespace LibraValidation

/-- C9 counterexample: the row `["Total", 0, 0]` has a non-empty label and
both values 0 after rounding, yet it is excluded (the `"Total"` filter
runs first) — refuting the claim that every such row is kept. -/
theorem c9_total_zero_counterexample :
    rowLabel totalZeroRow ≠ [] ∧
    (round6F ⟨false, 0⟩).val = 0 ∧
    processRow 1 2 totalZeroRow = none := by
  exact ⟨by with_unfolding_all decide, by with_unfolding_all rfl, by with_unfolding_all rfl⟩

/-- C9 amended: every row whose label is empty is excluded — such a row
can never carry a present numeric cell, because a numeric cell's string
form is non-empty and would become the label, so its value cells are NA
or non-numeric text and the row dies on the blank-row guard or in
`float()`.  A row with at least one present value cell, a non-empty label
that passes the `"Total"` filter, and two parseable values both rounding
to 0 is kept. -/
theorem c9_zero_row_filter_amended :
    (∀ (l a : ℕ) (row : List Cell), rowLabel row = [] → processRow l a row = none) ∧
    (∀ (l a : ℕ) (row : List Cell) (lv av : PyFloat),
      rowLabel row ≠ [] →
      ¬ (row.getD l Cell.na = Cell.na ∧ row.getD a Cell.na = Cell.na) →
      ¬ (containsSub totalTok (rowLabel row) = true ∧
          ¬ containsSub hyTok (rowLabel row) = true) →
      floatOrZero (row.getD l Cell.na) = some lv →
      floatOrZero (row.getD a Cell.na) = some av →
      (round6F lv).val = 0 → (round6F av).val = 0 →
      processRow l a row = some (round6F lv, round6F av)) := by
  constructor
  · intro l a row hlab
    simp only [processRow]
    by_cases hna : row.getD l Cell.na = Cell.na ∧ row.getD a Cell.na = Cell.na
    · rw [if_pos hna]
    · rw [if_neg hna, hlab]
      rw [if_neg (by decide)]
      have hcl : floatOrZero (row.getD l Cell.na) = none ∨ row.getD l Cell.na = Cell.na := by
        rcases getD_na_or_mem row l with h | h
        · exact .inr h
        · exact cellRepr_empty_not_num (rowLabel_empty_cells row hlab _ h)
      have hca : floatOrZero (row.getD a Cell.na) = none ∨ row.getD a Cell.na = Cell.na := by
        rcases getD_na_or_mem row a with h | h
        · exact .inr h
        · exact cellRepr_empty_not_num (rowLabel_empty_cells row hlab _ h)
      rcases hcl with h1 | h1
      · rw [h1]
      · rcases hca with h2 | h2
        · rw [h1, h2]
          rfl
        · exact absurd ⟨h1, h2⟩ hna
  · intro l a row lv av hlab hna hTot hl ha hz1 hz2
    simp only [processRow]
    rw [if_neg hna, if_neg hTot, hl, ha]
    dsimp only
    rw [if_neg ?_]
    intro hc
    exact hlab hc.2.2

/-- C9 witness: a row of NA and whitespace cells (empty label) is
excluded; a labelled row with two zero values passing the filters is
kept. -/
theorem c9_zero_row_filter_witness :
    processRow 1 2 [Cell.na, Cell.str (" ").data, Cell.na] = none ∧
    processRow 1 2 [Cell.str ("net").data, Cell.num ⟨false, 0⟩, Cell.num ⟨false, 0⟩] =
      some (round6F ⟨false, 0⟩, round6F ⟨false, 0⟩) := by
  constructor
  · exact c9_zero_row_filter_amended.1 1 2 _ (by with_unfolding_all rfl)
  · exact c9_zero_row_filter_amended.2 1 2 _ ⟨false, 0⟩ ⟨false, 0⟩
      (by with_unfolding_all decide) (by with_unfolding_all decide)
      (by with_unfolding_all decide) (by with_unfolding_all rfl)
      (by with_unfolding_all rfl) (by with_unfolding_all rfl) (by with_unfolding_all rfl)

/-- C2 counterexample: WB has `Liability` at column 0 and `Asset` at
column 1 while DBIB has them swapped; per-sheet label-driven extraction
(the spec's contract) reads DBIB as `(4, 3)`, but the source applies WB's
column indices positionally to DBIB and reads `(3, 4)` — the two
disagree, so column discovery is not label-driven per sheet. -/
theorem c2_per_sheet_counterexample :
    extractExcelData wbSwap dbibSwap =
      .ok [(⟨false, 1⟩, ⟨false, 2⟩), (⟨false, 3⟩, ⟨false, 4⟩)] ∧
    specLabelDrivenExtract wbSwap dbibSwap =
      .ok [(⟨false, 1⟩, ⟨false, 2⟩), (⟨false, 4⟩, ⟨false, 3⟩)] ∧
    extractExcelData wbSwap dbibSwap ≠ specLabelDrivenExtract wbSwap dbibSwap := by
  have e1 : extractExcelData wbSwap dbibSwap =
      .ok [(⟨false, 1⟩, ⟨false, 2⟩), (⟨false, 3⟩, ⟨false, 4⟩)] := by
    with_unfolding_all rfl
  have e2 : specLabelDrivenExtract wbSwap dbibSwap =
      .ok [(⟨false, 1⟩, ⟨false, 2⟩), (⟨false, 4⟩, ⟨false, 3⟩)] := by
    with_unfolding_all rfl
  refine ⟨e1, e2, ?_⟩
  rw [e1, e2]
  intro h
  injection h with h
  exact absurd h (by with_unfolding_all decide)

/-- C2 amended: the header scan is label-driven on the WB sheet only —
`findCols` returns, for each token, the column of the first cell in
reading order whose stripped lower-cased text equals it — and those WB
indices (with WB's data-start row) are applied positionally to both
sheets, so extraction agrees with per-sheet label-driven discovery
exactly when DBIB's own first-match columns and data-start coincide with
WB's. -/
theorem c2_header_scan_amended :
    (∀ s : Sheet, findCols s = (firstMatchCol liaTok s, firstMatchCol assetTok s)) ∧
    (∀ (wb dbib : Sheet) (l a st : ℕ),
      firstMatchCol liaTok wb = some l → firstMatchCol assetTok wb = some a →
      firstMatchCol liaTok dbib = some l → firstMatchCol assetTok dbib = some a →
      findDataStart wb l a = some st → findDataStart dbib l a = some st →
      specLabelDrivenExtract wb dbib = extractExcelData wb dbib) := by
  refine ⟨findCols_eq_firstMatch, ?_⟩
  intro wb dbib l a st h1 h2 h3 h4 h5 h6
  unfold specLabelDrivenExtract specSheetExtract extractExcelData
  rw [findCols_eq_firstMatch, h1, h2, h3, h4]
  dsimp only
  rw [h5, h6]
  rfl

/-- C2 witness: on two sheets with identical layout the source extraction
and the per-sheet label-driven extraction agree. -/
theorem c2_header_scan_witness :
    specLabelDrivenExtract wbSwap wbSwap = extractExcelData wbSwap wbSwap :=
  c2_header_scan_amended.2 wbSwap wbSwap 0 1 1
    (by with_unfolding_all rfl) (by with_unfolding_all rfl)
    (by with_unfolding_all rfl) (by with_unfolding_all rfl)
    (by with_unfolding_all rfl) (by with_unfolding_all rfl)

end LibraValidation
